import Mathlib

/-!
Verification development for the windows_event_automation capture/replay core.

The definitions below are a shallow embedding of src/windows_event_automation.py:
the recorded action tuples become an inductive type, the MacroRecorder callback
handlers and the MacroPlayer run loop become pure state-passing functions, and
every externally visible effect (key/button injection, pointer motion, scrolling,
sleeps, logged warnings, Qt signal emissions) is collected into an explicit
event trace.  Wall-clock times and deltas are modelled as rationals.
-/

namespace Wea

/-- One entry of the recorded action log.  In the Python source these are the
tuples appended by the MacroRecorder callbacks: ('key_down', name, delta),
('key_up', name, delta), ('move', x, y, delta), ('mouse_down'/'mouse_up',
button_name, x, y, delta) and ('scroll', dx, dy, delta). -/
inductive Action
  | key_down (key_name : String) (delta : ℚ)
  | key_up (key_name : String) (delta : ℚ)
  | move (x y : Int) (delta : ℚ)
  | mouse_down (button_name : String) (x y : Int) (delta : ℚ)
  | mouse_up (button_name : String) (x y : Int) (delta : ℚ)
  | scroll (dx dy : Int) (delta : ℚ)
deriving DecidableEq, Repr

/-- The delta-time payload of an action: in the source every tuple stores the
delta in its last slot and the player reads it as action[-1]. -/
def Action.delta : Action → ℚ
  | .key_down _ d => d
  | .key_up _ d => d
  | .move _ _ d => d
  | .mouse_down _ _ _ d => d
  | .mouse_up _ _ _ d => d
  | .scroll _ _ d => d

/-- A keyboard primitive as the pynput library exposes it: either a KeyCode
carrying a printable character, or a member of the closed Key enumeration of
special keys (identified here by its member name). -/
inductive PKey
  | chr (c : Char)
  | special (s : String)
deriving DecidableEq, Repr

/-- Member names of the pynput keyboard Key enumeration (win32 backend): the
closed namespace that MacroPlayer.get_key resolves special key names against
via getattr.  All member names are lowercase and at least two characters. -/
def pynputKeyNames : List String :=
  ["alt", "alt_l", "alt_r", "alt_gr", "backspace", "caps_lock",
   "cmd", "cmd_l", "cmd_r", "ctrl", "ctrl_l", "ctrl_r", "delete",
   "down", "end", "enter", "esc",
   "f1", "f2", "f3", "f4", "f5", "f6", "f7", "f8", "f9", "f10",
   "f11", "f12", "f13", "f14", "f15", "f16", "f17", "f18", "f19", "f20",
   "home", "insert", "left",
   "media_next", "media_play_pause", "media_previous",
   "media_volume_down", "media_volume_mute", "media_volume_up",
   "menu", "num_lock", "page_down", "page_up", "pause", "print_screen",
   "right", "scroll_lock", "shift", "shift_l", "shift_r", "space",
   "tab", "up"]

/-- Member names of the pynput mouse Button enumeration (win32 backend): the
closed namespace that MacroPlayer.get_button resolves button names against. -/
def pynputButtonNames : List String :=
  ["unknown", "left", "middle", "right", "x1", "x2"]

/-- Character-wise lowercasing, the effect of Python str.lower() on the ASCII
key names this program handles. -/
def strLower (s : String) : String :=
  String.mk (s.data.map Char.toLower)

/-- MacroPlayer.get_key: a one-character name is returned as the character
itself; otherwise the lowercased name is looked up in the Key enumeration, and
a failed lookup (AttributeError in the source) yields the unmapped outcome. -/
def get_key (key_name : String) : Option PKey :=
  if key_name.length = 1 then
    some (PKey.chr (key_name.toList.headD 'A'))
  else if pynputKeyNames.contains (strLower key_name) then
    some (PKey.special (strLower key_name))
  else
    none

/-- MacroPlayer.get_button: the recorded name is looked up (case-sensitively)
in the Button enumeration; a failed lookup yields the unmapped outcome. -/
def get_button (button_name : String) : Option String :=
  if pynputButtonNames.contains button_name then some button_name else none

/-- MacroRecorder.get_key_name: a character key records its character (a
one-character string); a special key records str(key) with the leading
Key. prefix stripped, which is exactly the enumeration member name. -/
def get_key_name : PKey → String
  | .chr c => String.mk [c]
  | .special s => s

/-- One externally visible effect of the replay engine: an injected OS input
event, a sleep, a logged warning, or a Qt signal emission. -/
inductive Event
  | sleep (d : ℚ)
  | press (k : PKey)
  | release (k : PKey)
  | moveTo (x y : Int)
  | buttonPress (b : String)
  | buttonRelease (b : String)
  | scrollBy (dx dy : Int)
  | warn (msg : String)
  | progress (i : Nat)
  | status (s : String)
  | finishedSig
deriving DecidableEq, Repr

/-- Python set.add on a duplicate-free list model. -/
def setAdd {α : Type} [DecidableEq α] (x : α) (l : List α) : List α :=
  if x ∈ l then l else l ++ [x]

/-- Python set.discard on a duplicate-free list model: removes the element if
present and is a no-op otherwise, never an error. -/
def setDiscard {α : Type} [DecidableEq α] (x : α) (l : List α) : List α :=
  l.filter (fun y => decide (y ≠ x))

/-- The mutable state of a MacroPlayer instance that replay touches: the
pressed_keys and pressed_buttons held sets. -/
structure PlayerState where
  pressed_keys : List PKey
  pressed_buttons : List String
deriving DecidableEq, Repr

/-- MacroPlayer.execute_action: dispatches on the action tag; unresolvable key
or button names log a warning and return without touching the held sets; down
events inject and add to the held set; up events inject and discard. -/
def execute_action (a : Action) (st : PlayerState) : PlayerState × List Event :=
  match a with
  | .key_down name _ =>
    match get_key name with
    | none => (st, [Event.warn ("Unrecognized key: " ++ name)])
    | some k =>
      ({ st with pressed_keys := setAdd k st.pressed_keys }, [Event.press k])
  | .key_up name _ =>
    match get_key name with
    | none => (st, [Event.warn ("Unrecognized key: " ++ name)])
    | some k =>
      ({ st with pressed_keys := setDiscard k st.pressed_keys }, [Event.release k])
  | .move x y _ => (st, [Event.moveTo x y])
  | .mouse_down bname _ _ _ =>
    match get_button bname with
    | none => (st, [Event.warn ("Unrecognized mouse button: " ++ bname)])
    | some b =>
      ({ st with pressed_buttons := setAdd b st.pressed_buttons }, [Event.buttonPress b])
  | .mouse_up bname _ _ _ =>
    match get_button bname with
    | none => (st, [Event.warn ("Unrecognized mouse button: " ++ bname)])
    | some b =>
      ({ st with pressed_buttons := setDiscard b st.pressed_buttons }, [Event.buttonRelease b])
  | .scroll dx dy _ => (st, [Event.scrollBy dx dy])

/-- The event list produced by executing one action; it does not depend on the
held-set state. -/
def actionEvents (a : Action) : List Event :=
  (execute_action a { pressed_keys := [], pressed_buttons := [] }).2

/-- Environment of one playback run.  The is_playing flag is written by
stop_playback on another thread; since it only ever goes from true to false,
every interleaving is captured by the index of the first flag read that
observes false (cutoff; none means never cancelled).  failAt is the index of
the execute_action call whose OS injection raises (none means no error). -/
structure RunCtx where
  cutoff : Option Nat
  failAt : Option Nat
deriving DecidableEq, Repr

/-- The value the loop observes when it reads is_playing for the n-th time. -/
def flagRead (ctx : RunCtx) (n : Nat) : Bool :=
  match ctx.cutoff with
  | none => true
  | some c => n < c

/-- The run with no cancellation and no synthesis error. -/
def ctx0 : RunCtx := { cutoff := none, failAt := none }

/-- Intermediate result of a piece of the replay loop: resulting held-set
state, emitted events, next flag-read index, next execution index, and whether
an exception is propagating. -/
structure StepOut where
  st : PlayerState
  evs : List Event
  ci : Nat
  ei : Nat
  raised : Bool
deriving DecidableEq, Repr

/-- The inner loop of MacroPlayer.run over one pass of the action list:
check the is_playing flag before each action (break when false), sleep for the
delta when positive, then execute the action; an execution whose injection
raises propagates the exception out of the pass. -/
def playActions (ctx : RunCtx) : List Action → PlayerState → Nat → Nat → StepOut
  | [], st, ci, ei => { st := st, evs := [], ci := ci, ei := ei, raised := false }
  | a :: rest, st, ci, ei =>
    if flagRead ctx ci then
      let sevs : List Event := if 0 < a.delta then [Event.sleep a.delta] else []
      if ctx.failAt = some ei then
        { st := st, evs := sevs, ci := ci + 1, ei := ei + 1, raised := true }
      else
        let r := execute_action a st
        let out := playActions ctx rest r.1 (ci + 1) (ei + 1)
        { st := out.st, evs := sevs ++ r.2 ++ out.evs, ci := out.ci,
          ei := out.ei, raised := out.raised }
    else
      { st := st, evs := [], ci := ci + 1, ei := ei, raised := false }

/-- The outer loop of MacroPlayer.run: for each of the remaining iterations,
check the is_playing flag at the top (break when false), run one pass over
the actions, and emit the 1-based progress signal after the pass; the progress
emission is skipped only by the top-of-iteration break or by an exception,
not by the inner break.  i is the number of iterations already begun. -/
def playIters (ctx : RunCtx) (acts : List Action) :
    Nat → Nat → PlayerState → Nat → Nat → StepOut
  | 0, _, st, ci, ei => { st := st, evs := [], ci := ci, ei := ei, raised := false }
  | m + 1, i, st, ci, ei =>
    if flagRead ctx ci then
      let inner := playActions ctx acts st (ci + 1) ei
      if inner.raised then
        { st := inner.st, evs := inner.evs, ci := inner.ci, ei := inner.ei,
          raised := true }
      else
        let rest := playIters ctx acts m (i + 1) inner.st inner.ci inner.ei
        { st := rest.st,
          evs := inner.evs ++ Event.progress (i + 1) :: rest.evs,
          ci := rest.ci, ei := rest.ei, raised := rest.raised }
    else
      { st := st, evs := [], ci := ci + 1, ei := ei, raised := false }

/-- MacroPlayer.release_all: inject a release for every key and button still
in the held sets, then clear both sets. -/
def release_all (st : PlayerState) : PlayerState × List Event :=
  ({ pressed_keys := [], pressed_buttons := [] },
   st.pressed_keys.map Event.release ++ st.pressed_buttons.map Event.buttonRelease)

/-- MacroPlayer.run: emit the starting status, run the iteration loop, emit
the closing status (finished, stopped, or error depending on how the loop
ended), and in the finally block release everything still held and emit the
finished signal.  Returns the final held-set state and the full event trace. -/
def player_run (acts : List Action) (repeat_count : Nat) (ctx : RunCtx) :
    PlayerState × List Event :=
  let st0 : PlayerState := { pressed_keys := [], pressed_buttons := [] }
  let out := playIters ctx acts repeat_count 0 st0 0 0
  let tail : List Event :=
    if out.raised then [Event.status ("Playback Error")]
    else if flagRead ctx out.ci then [Event.status ("Playback Finished")]
    else [Event.status ("Playback Stopped")]
  let rel := release_all out.st
  (rel.1, Event.status ("Playing Macro") :: out.evs ++ tail ++ rel.2 ++ [Event.finishedSig])

/-- The 1-based iteration indices carried by the progress signals of a trace,
in emission order. -/
def progressValues (evs : List Event) : List Nat :=
  evs.filterMap (fun e => match e with | Event.progress i => some i | _ => none)

/-- Folding execute_action over a list of actions (held-set state only). -/
def execStates (l : List Action) (st : PlayerState) : PlayerState :=
  l.foldl (fun s a => (execute_action a s).1) st

/-- The event trace of one uninterrupted pass over the action list: for each
action in stored order, a sleep when its delta is positive followed by the
events of executing it. -/
def iterEvents (l : List Action) : List Event :=
  l.flatMap (fun a =>
    (if 0 < a.delta then [Event.sleep a.delta] else []) ++ actionEvents a)

/-- An input primitive as observed by the capture listeners. -/
inductive Prim
  | keyPress (k : PKey)
  | keyRelease (k : PKey)
  | pointerMove (x y : Int)
  | buttonDown (b : String) (x y : Int)
  | buttonUp (b : String) (x y : Int)
  | wheel (dx dy : Int)
deriving DecidableEq, Repr

/-- The mutable state of a MacroRecorder instance that capture touches. -/
structure RecState where
  recording : Bool
  actions : List Action
  last_action_time : ℚ
deriving DecidableEq, Repr

/-- MacroRecorder.on_key_press: ignore the event unless recording; otherwise
append a key_down action whose delta is now minus last_action_time and set
last_action_time to now. -/
def on_key_press (st : RecState) (now : ℚ) (k : PKey) : RecState :=
  if st.recording = false then st else
  { st with
    actions := st.actions ++ [Action.key_down (get_key_name k) (now - st.last_action_time)],
    last_action_time := now }

/-- MacroRecorder.on_key_release: the key_up analogue of on_key_press. -/
def on_key_release (st : RecState) (now : ℚ) (k : PKey) : RecState :=
  if st.recording = false then st else
  { st with
    actions := st.actions ++ [Action.key_up (get_key_name k) (now - st.last_action_time)],
    last_action_time := now }

/-- MacroRecorder.on_mouse_move. -/
def on_mouse_move (st : RecState) (now : ℚ) (x y : Int) : RecState :=
  if st.recording = false then st else
  { st with
    actions := st.actions ++ [Action.move x y (now - st.last_action_time)],
    last_action_time := now }

/-- MacroRecorder.on_mouse_click: appends mouse_down when pressed and mouse_up
otherwise, recording the button member name and the click position. -/
def on_mouse_click (st : RecState) (now : ℚ) (x y : Int) (bname : String)
    (pressed : Bool) : RecState :=
  if st.recording = false then st else
  { st with
    actions := st.actions ++
      [if pressed then Action.mouse_down bname x y (now - st.last_action_time)
       else Action.mouse_up bname x y (now - st.last_action_time)],
    last_action_time := now }

/-- MacroRecorder.on_mouse_scroll: records dx and dy (the position arguments
are dropped by the source). -/
def on_mouse_scroll (st : RecState) (now : ℚ) (dx dy : Int) : RecState :=
  if st.recording = false then st else
  { st with
    actions := st.actions ++ [Action.scroll dx dy (now - st.last_action_time)],
    last_action_time := now }

/-- Dispatch of one observed primitive to the MacroRecorder callback that
pynput would invoke for it. -/
def handle_event (st : RecState) (now : ℚ) (p : Prim) : RecState :=
  match p with
  | .keyPress k => on_key_press st now k
  | .keyRelease k => on_key_release st now k
  | .pointerMove x y => on_mouse_move st now x y
  | .buttonDown b x y => on_mouse_click st now x y b true
  | .buttonUp b x y => on_mouse_click st now x y b false
  | .wheel dx dy => on_mouse_scroll st now dx dy

/-- Delivering a chronological list of timestamped primitives to the recorder. -/
def record_session (st : RecState) : List (ℚ × Prim) → RecState
  | [] => st
  | (t, p) :: rest => record_session (handle_event st t p) rest

/-- The recorder state right after MacroRecorder.run starts: recording is on,
the log is empty, and last_action_time is initialized to the start time. -/
def rec_init (start : ℚ) : RecState :=
  { recording := true, actions := [], last_action_time := start }

/-- Outcome of the play_macro admission check in MacroRecorderGUI. -/
inductive PlayCmdResult
  | rejected_no_actions
  | rejected_already_playing
  | accepted
deriving DecidableEq, Repr

/-- The parts of the GUI state that the play_macro admission check can see. -/
structure GuiState where
  recorded_actions : List Action
  player_running : Bool
  recorder_running : Bool
deriving DecidableEq, Repr

/-- MacroRecorderGUI.play_macro admission logic: reject with an info box when
no actions are recorded, reject with a warning when a playback is already
running, and otherwise start a player.  The source consults nothing else. -/
def play_macro_cmd (g : GuiState) : PlayCmdResult :=
  if g.recorded_actions.isEmpty then PlayCmdResult.rejected_no_actions
  else if g.player_running then PlayCmdResult.rejected_already_playing
  else PlayCmdResult.accepted

/-- A key primitive the capture side can encode symbolically: any character
key, and any special key drawn from the Key enumeration. -/
def validKey : PKey → Bool
  | .chr _ => true
  | .special s => pynputKeyNames.contains s

/-- A primitive whose symbolic encoding is capturable: its key is a valid
key and its button a member of the Button enumeration. -/
def validPrim : Prim → Bool
  | .keyPress k => validKey k
  | .keyRelease k => validKey k
  | .buttonDown b _ _ => pynputButtonNames.contains b
  | .buttonUp b _ _ => pynputButtonNames.contains b
  | _ => true

/-- Physical consistency of a primitive sequence with a starting pointer
position: every click happens at the position the pointer is actually at,
as updated by the pointer-move primitives. -/
def posConsistent : Int × Int → List Prim → Bool
  | _, [] => true
  | pos, p :: rest =>
    match p with
    | .pointerMove x y => posConsistent (x, y) rest
    | .buttonDown _ x y => x == pos.1 && y == pos.2 && posConsistent pos rest
    | .buttonUp _ x y => x == pos.1 && y == pos.2 && posConsistent pos rest
    | _ => posConsistent pos rest

/-- Observing a replay event trace the way the capture listeners would:
injected input events become primitives (clicks are observed at the current
pointer position, threaded through the pointer-move events), while sleeps,
log lines and signal emissions are not OS input and are invisible. -/
def recapture : Int × Int → List Event → List Prim
  | _, [] => []
  | pos, e :: rest =>
    match e with
    | .press k => Prim.keyPress k :: recapture pos rest
    | .release k => Prim.keyRelease k :: recapture pos rest
    | .moveTo x y => Prim.pointerMove x y :: recapture (x, y) rest
    | .buttonPress b => Prim.buttonDown b pos.1 pos.2 :: recapture pos rest
    | .buttonRelease b => Prim.buttonUp b pos.1 pos.2 :: recapture pos rest
    | .scrollBy dx dy => Prim.wheel dx dy :: recapture pos rest
    | _ => recapture pos rest

/-- The action a capture callback appends for a primitive, given the computed
delta. -/
def primAction : Prim → ℚ → Action
  | .keyPress k, d => Action.key_down (get_key_name k) d
  | .keyRelease k, d => Action.key_up (get_key_name k) d
  | .pointerMove x y, d => Action.move x y d
  | .buttonDown b x y, d => Action.mouse_down b x y d
  | .buttonUp b x y, d => Action.mouse_up b x y d
  | .wheel dx dy, d => Action.scroll dx dy d

/-- The action log produced by delivering timestamped primitives to an active
recorder whose last_action_time is last. -/
def captureList (last : ℚ) : List (ℚ × Prim) → List Action
  | [] => []
  | (t, p) :: rest => primAction p (t - last) :: captureList t rest

/-- An action that names a key or button the replay-side lookup cannot
resolve. -/
def unmapped : Action → Bool
  | .key_down n _ => (get_key n).isNone
  | .key_up n _ => (get_key n).isNone
  | .mouse_down b _ _ _ => (get_button b).isNone
  | .mouse_up b _ _ _ => (get_button b).isNone
  | _ => false

/-- Tag test: key_down. -/
def Action.isKeyDown : Action → Bool
  | .key_down _ _ => true
  | _ => false

/-- Tag test: key_up. -/
def Action.isKeyUp : Action → Bool
  | .key_up _ _ => true
  | _ => false

/-- Tag test: mouse_down. -/
def Action.isMouseDown : Action → Bool
  | .mouse_down _ _ _ _ => true
  | _ => false

/-- Tag test: mouse_up. -/
def Action.isMouseUp : Action → Bool
  | .mouse_up _ _ _ _ => true
  | _ => false

/-- Iterating full passes of the action list over the held-set state. -/
def execStatesN (l : List Action) : Nat → PlayerState → PlayerState
  | 0, st => st
  | m + 1, st => execStatesN l m (execStates l st)

/-- The trace of m uninterrupted iterations starting after i completed ones:
each pass's events followed by its progress signal. -/
def itersTrace (l : List Action) : Nat → Nat → List Event
  | 0, _ => []
  | m + 1, i => iterEvents l ++ Event.progress (i + 1) :: itersTrace l m (i + 1)

/-!  Helper lemmas shared by the claim theorems.  -/

/-- The events of one action do not depend on the held-set state. -/
lemma execute_action_events (a : Action) (st : PlayerState) :
    (execute_action a st).2 = actionEvents a := by
  cases a with
  | key_down n d => cases hk : get_key n <;> simp [execute_action, actionEvents, hk]
  | key_up n d => cases hk : get_key n <;> simp [execute_action, actionEvents, hk]
  | move x y d => rfl
  | mouse_down b x y d => cases hb : get_button b <;> simp [execute_action, actionEvents, hb]
  | mouse_up b x y d => cases hb : get_button b <;> simp [execute_action, actionEvents, hb]
  | scroll dx dy d => rfl

/-- With no cancellation and no error, one pass of the inner loop executes
every action in stored order: closed form of playActions under ctx0. -/
lemma playActions_ctx0 : ∀ (l : List Action) (st : PlayerState) (ci ei : Nat),
    playActions ctx0 l st ci ei =
      { st := execStates l st, evs := iterEvents l,
        ci := ci + l.length, ei := ei + l.length, raised := false } := by
  intro l
  induction l with
  | nil => intro st ci ei; rfl
  | cons a rest ih =>
    intro st ci ei
    have h1 : flagRead ctx0 ci = true := rfl
    have h2 : ¬ (ctx0.failAt = some ei) := by simp [ctx0]
    simp only [playActions, h1, if_true, h2, if_false, ih, execute_action_events]
    simp [execStates, iterEvents, List.append_assoc, StepOut.mk.injEq]
    omega

/-- Closed form of the outer loop under ctx0: m uninterrupted iterations. -/
lemma playIters_ctx0 (l : List Action) : ∀ (m i : Nat) (st : PlayerState) (ci ei : Nat),
    playIters ctx0 l m i st ci ei =
      { st := execStatesN l m st, evs := itersTrace l m i,
        ci := ci + m * (l.length + 1), ei := ei + m * l.length, raised := false } := by
  intro m
  induction m with
  | zero => intro i st ci ei; simp [playIters, execStatesN, itersTrace]
  | succ m ih =>
    intro i st ci ei
    have h1 : flagRead ctx0 ci = true := rfl
    simp only [playIters, h1, if_true, playActions_ctx0, ih]
    simp [execStatesN, itersTrace, StepOut.mk.injEq]
    constructor <;> ring

lemma progressValues_append (xs ys : List Event) :
    progressValues (xs ++ ys) = progressValues xs ++ progressValues ys := by
  simp [progressValues]

lemma progressValues_actionEvents (a : Action) : progressValues (actionEvents a) = [] := by
  cases a with
  | key_down n d => cases hk : get_key n <;> simp [actionEvents, execute_action, hk, progressValues]
  | key_up n d => cases hk : get_key n <;> simp [actionEvents, execute_action, hk, progressValues]
  | move x y d => rfl
  | mouse_down b x y d => cases hb : get_button b <;> simp [actionEvents, execute_action, hb, progressValues]
  | mouse_up b x y d => cases hb : get_button b <;> simp [actionEvents, execute_action, hb, progressValues]
  | scroll dx dy d => rfl

lemma progressValues_iterEvents (l : List Action) : progressValues (iterEvents l) = [] := by
  induction l with
  | nil => rfl
  | cons a rest ih =>
    have hs : progressValues (if 0 < a.delta then [Event.sleep a.delta] else []) = [] := by
      split <;> rfl
    simp only [iterEvents, List.flatMap_cons] at *
    rw [List.append_assoc, progressValues_append, progressValues_append, hs,
      progressValues_actionEvents, ih]
    rfl

lemma progressValues_itersTrace (l : List Action) : ∀ (m i : Nat),
    progressValues (itersTrace l m i) = (List.range m).map (fun j => i + 1 + j) := by
  intro m
  induction m with
  | zero => intro i; simp [itersTrace, progressValues]
  | succ m ih =>
    intro i
    simp only [itersTrace]
    rw [progressValues_append, progressValues_iterEvents]
    have hc : progressValues (Event.progress (i + 1) :: itersTrace l m (i + 1)) =
        (i + 1) :: progressValues (itersTrace l m (i + 1)) := rfl
    rw [hc, ih]
    rw [List.range_succ_eq_map, List.map_cons, List.map_map]
    refine congrArg₂ List.cons (by omega) ?_
    exact List.map_congr_left (fun j hj => by simp [Function.comp]; omega)

lemma progressValues_map_release (l : List PKey) :
    progressValues (l.map Event.release) = [] := by
  induction l <;> simp [progressValues, *]

lemma progressValues_map_buttonRelease (l : List String) :
    progressValues (l.map Event.buttonRelease) = [] := by
  induction l <;> simp [progressValues, *]

/-- The loop part of one playback run, started from the fresh player state. -/
def runOut (acts : List Action) (n : Nat) (ctx : RunCtx) : StepOut :=
  playIters ctx acts n 0 { pressed_keys := [], pressed_buttons := [] } 0 0

/-- Unfolding of player_run: the trace is the starting status, the loop
events, the closing status, the cleanup releases, and the finished signal,
and the returned state is the cleared one. -/
lemma player_run_eq (acts : List Action) (n : Nat) (ctx : RunCtx) :
    player_run acts n ctx =
      ({ pressed_keys := [], pressed_buttons := [] },
       Event.status ("Playing Macro") :: (runOut acts n ctx).evs ++
         (if (runOut acts n ctx).raised then [Event.status ("Playback Error")]
          else if flagRead ctx (runOut acts n ctx).ci then [Event.status ("Playback Finished")]
          else [Event.status ("Playback Stopped")]) ++
         ((runOut acts n ctx).st.pressed_keys.map Event.release ++
          (runOut acts n ctx).st.pressed_buttons.map Event.buttonRelease) ++
         [Event.finishedSig]) := rfl

lemma progressValues_player_run (acts : List Action) (n : Nat) (ctx : RunCtx) :
    progressValues ((player_run acts n ctx).2) = progressValues ((runOut acts n ctx).evs) := by
  rw [player_run_eq]
  have htail : ∀ (o : StepOut),
      progressValues
        (if o.raised then [Event.status ("Playback Error")]
         else if flagRead ctx o.ci then [Event.status ("Playback Finished")]
         else [Event.status ("Playback Stopped")]) = [] := by
    intro o
    split
    · rfl
    · split <;> rfl
  have hcons : ∀ (s : String) (l : List Event),
      progressValues (Event.status s :: l) = progressValues l := fun s l => rfl
  simp only [hcons, progressValues_append, htail, progressValues_map_release,
    progressValues_map_buttonRelease]
  simp [progressValues]

/-- C1: for every playback session and every exit path of the replay loop
(natural completion of all repeat iterations, cooperative cancellation via
stop_playback, or an exception raised during synthesis), before the finished
signal is emitted the engine releases every key in the held-keys set and
every button in the held-buttons set and leaves both sets empty. -/
theorem C1_cleanup_all_exit_paths (acts : List Action) (n : Nat) (ctx : RunCtx) :
    (player_run acts n ctx).1 = { pressed_keys := [], pressed_buttons := [] } ∧
    ∃ pre, (player_run acts n ctx).2 = pre ++ [Event.finishedSig] ∧
      (∀ k ∈ (runOut acts n ctx).st.pressed_keys, Event.release k ∈ pre) ∧
      (∀ b ∈ (runOut acts n ctx).st.pressed_buttons, Event.buttonRelease b ∈ pre) := by
  refine ⟨rfl, ?_⟩
  rw [player_run_eq]
  refine ⟨Event.status ("Playing Macro") :: ((runOut acts n ctx).evs ++
      (if (runOut acts n ctx).raised then [Event.status ("Playback Error")]
       else if flagRead ctx (runOut acts n ctx).ci then [Event.status ("Playback Finished")]
       else [Event.status ("Playback Stopped")]) ++
      ((runOut acts n ctx).st.pressed_keys.map Event.release ++
       (runOut acts n ctx).st.pressed_buttons.map Event.buttonRelease)), rfl, ?_, ?_⟩
  · intro k hk
    refine List.mem_cons_of_mem _ (List.mem_append_right _ ?_)
    exact List.mem_append_left _ (List.mem_map_of_mem Event.release hk)
  · intro b hb
    refine List.mem_cons_of_mem _ (List.mem_append_right _ ?_)
    exact List.mem_append_right _ (List.mem_map_of_mem Event.buttonRelease hb)

/-- C1 witness: a one-action log that holds key a when the loop ends; the
final state is cleared and the cleanup release is in the emitted trace. -/
theorem C1_cleanup_all_exit_paths_witness :
    (player_run [Action.key_down ("a") 0] 1 ctx0).1 =
      { pressed_keys := [], pressed_buttons := [] } ∧
    Event.release (PKey.chr 'a') ∈ (player_run [Action.key_down ("a") 0] 1 ctx0).2 := by
  obtain ⟨h1, pre, htr, hk, hb⟩ := C1_cleanup_all_exit_paths [Action.key_down ("a") 0] 1 ctx0
  refine ⟨h1, ?_⟩
  rw [htr]
  exact List.mem_append_left _ (hk (PKey.chr 'a') (by decide))

/-- C3: for every repeat count N, an uninterrupted error-free playback emits
the progress signal exactly N times, carrying 1, 2, ..., N in that order. -/
theorem C3_progress_one_to_n (acts : List Action) (n : Nat) :
    progressValues ((player_run acts n ctx0).2) = (List.range n).map (fun j => j + 1) := by
  rw [progressValues_player_run]
  have hout : runOut acts n ctx0 =
      { st := execStatesN acts n { pressed_keys := [], pressed_buttons := [] },
        evs := itersTrace acts n 0,
        ci := n * (acts.length + 1), ei := n * acts.length, raised := false } := by
    simp [runOut, playIters_ctx0]
  rw [hout, progressValues_itersTrace]
  exact List.map_congr_left (fun j hj => by omega)

/-- C2 evaluation: a five-iteration playback of a two-action log cancelled
just before the second action of iteration 2 still emits the progress signal
for the interrupted iteration: the trace carries values 1 and 2, not only 1. -/
theorem C2_progress_for_interrupted_iteration :
    progressValues ((player_run [Action.key_down ("a") 0, Action.key_up ("a") 0] 5
      { cutoff := some 5, failAt := none }).2) = [1, 2] := by decide

/-- C8: within one iteration the replay engine processes the log's actions in
exactly their stored order, sleeping for delta seconds before synthesizing any
action whose delta is positive, the first action of the log included; no
action is reordered or batched and the pass raises nothing. -/
theorem C8_in_order_with_pre_sleep (acts : List Action) (st : PlayerState) (ci ei : Nat) :
    (playActions ctx0 acts st ci ei).evs =
      acts.flatMap (fun a =>
        (if 0 < a.delta then [Event.sleep a.delta] else []) ++ actionEvents a) ∧
    (playActions ctx0 acts st ci ei).raised = false := by
  rw [playActions_ctx0]
  exact ⟨rfl, rfl⟩

lemma setAdd_supset {α : Type} [DecidableEq α] (x : α) (l : List α) : l ⊆ setAdd x l := by
  unfold setAdd
  split
  · exact fun a ha => ha
  · exact List.subset_append_left l [x]

lemma setDiscard_subset {α : Type} [DecidableEq α] (x : α) (l : List α) :
    setDiscard x l ⊆ l :=
  fun _ ha => (List.mem_filter.mp ha).1

lemma setDiscard_of_not_mem {α : Type} [DecidableEq α] {x : α} {l : List α} (h : x ∉ l) :
    setDiscard x l = l := by
  unfold setDiscard
  exact List.filter_eq_self.mpr (fun y hy => decide_eq_true (fun he => h (he ▸ hy)))

/-- C4: an action whose recorded key or button symbol cannot be resolved is
skipped after logging a warning: the held sets are untouched, the session does
not fail, and all subsequent actions of the pass are still executed. -/
theorem C4_unmapped_symbol_skipped (a : Action) (st : PlayerState) (h : unmapped a = true) :
    (execute_action a st).1 = st ∧
    (∃ w, (execute_action a st).2 = [Event.warn w]) ∧
    (∀ (rest : List Action) (ci ei : Nat),
      (playActions ctx0 (a :: rest) st ci ei).st =
        (playActions ctx0 rest st (ci + 1) (ei + 1)).st ∧
      (playActions ctx0 (a :: rest) st ci ei).evs =
        (if 0 < a.delta then [Event.sleep a.delta] else []) ++
          (execute_action a st).2 ++ (playActions ctx0 rest st (ci + 1) (ei + 1)).evs ∧
      (playActions ctx0 (a :: rest) st ci ei).raised = false) := by
  have hstep : (execute_action a st).1 = st ∧ ∃ w, (execute_action a st).2 = [Event.warn w] := by
    cases a with
    | key_down n d =>
      have hn : get_key n = none := by
        simpa [unmapped, Option.isNone_iff_eq_none] using h
      exact ⟨by simp [execute_action, hn], ⟨"Unrecognized key: " ++ n, by simp [execute_action, hn]⟩⟩
    | key_up n d =>
      have hn : get_key n = none := by
        simpa [unmapped, Option.isNone_iff_eq_none] using h
      exact ⟨by simp [execute_action, hn], ⟨"Unrecognized key: " ++ n, by simp [execute_action, hn]⟩⟩
    | move x y d => simp [unmapped] at h
    | mouse_down b x y d =>
      have hb : get_button b = none := by
        simpa [unmapped, Option.isNone_iff_eq_none] using h
      exact ⟨by simp [execute_action, hb],
        ⟨"Unrecognized mouse button: " ++ b, by simp [execute_action, hb]⟩⟩
    | mouse_up b x y d =>
      have hb : get_button b = none := by
        simpa [unmapped, Option.isNone_iff_eq_none] using h
      exact ⟨by simp [execute_action, hb],
        ⟨"Unrecognized mouse button: " ++ b, by simp [execute_action, hb]⟩⟩
    | scroll dx dy d => simp [unmapped] at h
  refine ⟨hstep.1, hstep.2, ?_⟩
  intro rest ci ei
  have h1 : flagRead ctx0 ci = true := rfl
  have h2 : ¬ (ctx0.failAt = some ei) := by simp [ctx0]
  simp only [playActions, h1, if_true, h2, if_false, hstep.1]
  refine ⟨trivial, trivial, ?_⟩
  rw [playActions_ctx0]

/-- C4 witness: the unresolvable key symbol Foobar is skipped with a warning
and the following action still executes. -/
theorem C4_unmapped_symbol_skipped_witness :
    unmapped (Action.key_down ("Foobar") 0) = true ∧
    (playActions ctx0 [Action.key_down ("Foobar") 0, Action.key_down ("a") 0]
        { pressed_keys := [], pressed_buttons := [] } 0 0).evs =
      [Event.warn ("Unrecognized key: Foobar"), Event.press (PKey.chr 'a')] := by
  have h := C4_unmapped_symbol_skipped (Action.key_down ("Foobar") 0)
    { pressed_keys := [], pressed_buttons := [] } (by decide)
  refine ⟨by decide, ?_⟩
  rw [(h.2.2 [Action.key_down ("a") 0] 0 0).2.1]
  decide

/-- C9: a key name of length exactly one always resolves to the character
itself, never the unmapped outcome, so key_down and key_up actions for single
printable characters are never skipped by the unmapped-symbol policy. -/
theorem C9_single_char_resolves (s : String) (d : ℚ) (st : PlayerState)
    (h : s.length = 1) :
    ∃ c, s.toList = [c] ∧ get_key s = some (PKey.chr c) ∧
      (execute_action (Action.key_down s d) st).2 = [Event.press (PKey.chr c)] ∧
      (execute_action (Action.key_up s d) st).2 = [Event.release (PKey.chr c)] := by
  obtain ⟨c, hc⟩ : ∃ c, s.toList = [c] := List.length_eq_one.mp h
  have hget : get_key s = some (PKey.chr c) := by
    have hd : s.data = [c] := hc
    simp [get_key, h, hd]
  exact ⟨c, hc, hget, by simp [execute_action, hget], by simp [execute_action, hget]⟩

/-- C9 witness at the one-character key name a. -/
theorem C9_single_char_resolves_witness :
    get_key ("a") = some (PKey.chr 'a') := by
  obtain ⟨c, hc, hget, h1, h2⟩ := C9_single_char_resolves ("a") 0
    { pressed_keys := [], pressed_buttons := [] } (by decide)
  have h3 : ("a" : String).toList = ['a'] := by decide
  rw [h3] at hc
  simp only [List.cons.injEq] at hc
  rw [hget, hc.1]

/-- C10: releasing a resolvable key or button that is not currently held
still injects the release and leaves the held set unchanged (discard
semantics, no error); and the held sets only grow on down-actions and only
shrink on up-actions. -/
theorem C10_release_discard_semantics (st : PlayerState) :
    (∀ (n : String) (d : ℚ) (k : PKey), get_key n = some k → k ∉ st.pressed_keys →
      execute_action (Action.key_up n d) st = (st, [Event.release k])) ∧
    (∀ (b : String) (x y : Int) (d : ℚ) (bt : String), get_button b = some bt →
      bt ∉ st.pressed_buttons →
      execute_action (Action.mouse_up b x y d) st = (st, [Event.buttonRelease bt])) ∧
    (∀ a : Action, a.isKeyDown = false →
      (execute_action a st).1.pressed_keys ⊆ st.pressed_keys) ∧
    (∀ a : Action, a.isKeyUp = false →
      st.pressed_keys ⊆ (execute_action a st).1.pressed_keys) ∧
    (∀ a : Action, a.isMouseDown = false →
      (execute_action a st).1.pressed_buttons ⊆ st.pressed_buttons) ∧
    (∀ a : Action, a.isMouseUp = false →
      st.pressed_buttons ⊆ (execute_action a st).1.pressed_buttons) := by
  refine ⟨?_, ?_, ?_, ?_, ?_, ?_⟩
  · intro n d k hk hmem
    simp [execute_action, hk, setDiscard_of_not_mem hmem]
  · intro b x y d bt hb hmem
    simp [execute_action, hb, setDiscard_of_not_mem hmem]
  · intro a ha
    cases a with
    | key_down n d => simp [Action.isKeyDown] at ha
    | key_up n d =>
      cases hk : get_key n <;> simp [execute_action, hk]
      exact setDiscard_subset _ _
    | move x y d => exact fun u hu => hu
    | mouse_down b x y d =>
      cases hb : get_button b <;> simp [execute_action, hb]
    | mouse_up b x y d =>
      cases hb : get_button b <;> simp [execute_action, hb]
    | scroll dx dy d => exact fun u hu => hu
  · intro a ha
    cases a with
    | key_down n d =>
      cases hk : get_key n <;> simp [execute_action, hk]
      exact setAdd_supset _ _
    | key_up n d => simp [Action.isKeyUp] at ha
    | move x y d => exact fun u hu => hu
    | mouse_down b x y d =>
      cases hb : get_button b <;> simp [execute_action, hb]
    | mouse_up b x y d =>
      cases hb : get_button b <;> simp [execute_action, hb]
    | scroll dx dy d => exact fun u hu => hu
  · intro a ha
    cases a with
    | key_down n d => cases hk : get_key n <;> simp [execute_action, hk]
    | key_up n d => cases hk : get_key n <;> simp [execute_action, hk]
    | move x y d => exact fun u hu => hu
    | mouse_down b x y d => simp [Action.isMouseDown] at ha
    | mouse_up b x y d =>
      cases hb : get_button b <;> simp [execute_action, hb]
      exact setDiscard_subset _ _
    | scroll dx dy d => exact fun u hu => hu
  · intro a ha
    cases a with
    | key_down n d => cases hk : get_key n <;> simp [execute_action, hk]
    | key_up n d => cases hk : get_key n <;> simp [execute_action, hk]
    | move x y d => exact fun u hu => hu
    | mouse_down b x y d =>
      cases hb : get_button b <;> simp [execute_action, hb]
      exact setAdd_supset _ _
    | mouse_up b x y d => simp [Action.isMouseUp] at ha
    | scroll dx dy d => exact fun u hu => hu

/-- C10 witness: releasing key a on an empty held set injects the release and
leaves the state unchanged. -/
theorem C10_release_discard_semantics_witness :
    execute_action (Action.key_up ("a") 0) { pressed_keys := [], pressed_buttons := [] } =
      ({ pressed_keys := [], pressed_buttons := [] }, [Event.release (PKey.chr 'a')]) :=
  (C10_release_discard_semantics { pressed_keys := [], pressed_buttons := [] }).1
    ("a") 0 (PKey.chr 'a') (by decide) (by decide)

/-- C5 counterexample: with a nonempty log, no running player, and a running
recorder, play_macro starts a playback rather than rejecting the command, so
start_playback is not rejected while a recording is in progress. -/
theorem C5_counterexample_accepts_while_recording :
    play_macro_cmd
        { recorded_actions := [Action.scroll 0 0 0]
          player_running := false
          recorder_running := true } = PlayCmdResult.accepted := by decide

/-- C5 amended: start_playback is rejected exactly when the log is empty or a
playback is already running; a recording in progress is not consulted by the
admission check and never causes rejection. -/
theorem C5_amended_admission (g : GuiState) (b : Bool) :
    (play_macro_cmd g = PlayCmdResult.accepted ↔
      g.recorded_actions.isEmpty = false ∧ g.player_running = false) ∧
    play_macro_cmd { g with recorder_running := b } = play_macro_cmd g := by
  cases he : g.recorded_actions.isEmpty <;> cases hp : g.player_running <;>
    simp [play_macro_cmd, he, hp]

/-- C5 amended witness: a nonempty log with nothing running is accepted. -/
theorem C5_amended_admission_witness :
    play_macro_cmd
        { recorded_actions := [Action.scroll 0 0 0]
          player_running := false
          recorder_running := false } = PlayCmdResult.accepted :=
  (C5_amended_admission
    { recorded_actions := [Action.scroll 0 0 0]
      player_running := false
      recorder_running := false } true).1.mpr (by decide)

lemma primAction_delta (p : Prim) (d : ℚ) : (primAction p d).delta = d := by
  cases p <;> rfl

/-- Every capture callback, while recording, appends exactly one action whose
delta is now minus last_action_time and then sets last_action_time to now. -/
lemma handle_event_eq (st : RecState) (now : ℚ) (p : Prim) (h : st.recording = true) :
    handle_event st now p =
      { recording := st.recording,
        actions := st.actions ++ [primAction p (now - st.last_action_time)],
        last_action_time := now } := by
  cases p <;> simp [handle_event, on_key_press, on_key_release, on_mouse_move,
    on_mouse_click, on_mouse_scroll, h, primAction]

/-- Closed form of a capture session from an active recorder. -/
lemma record_session_eq : ∀ (tevs : List (ℚ × Prim)) (st : RecState),
    st.recording = true →
    record_session st tevs =
      { recording := true,
        actions := st.actions ++ captureList st.last_action_time tevs,
        last_action_time := (tevs.map Prod.fst).getLastD st.last_action_time } := by
  intro tevs
  induction tevs with
  | nil =>
    intro st h
    obtain ⟨r, acts, t⟩ := st
    simp only at h
    subst h
    simp [record_session, captureList]
  | cons tp rest ih =>
    intro st h
    obtain ⟨t, p⟩ := tp
    rw [record_session, handle_event_eq st t p h]
    rw [ih { recording := st.recording,
             actions := st.actions ++ [primAction p (t - st.last_action_time)],
             last_action_time := t } h]
    simp only [captureList, List.map_cons, List.getLastD_cons, List.append_assoc,
      List.singleton_append]

lemma captureList_length : ∀ (tevs : List (ℚ × Prim)) (last : ℚ),
    (captureList last tevs).length = tevs.length := by
  intro tevs
  induction tevs with
  | nil => intro last; rfl
  | cons tp rest ih =>
    intro last
    obtain ⟨t, p⟩ := tp
    simp [captureList, ih]

lemma captureList_delta_sum : ∀ (tevs : List (ℚ × Prim)) (last : ℚ),
    ((captureList last tevs).map Action.delta).sum =
      (tevs.map Prod.fst).getLastD last - last := by
  intro tevs
  induction tevs with
  | nil => intro last; simp [captureList]
  | cons tp rest ih =>
    intro last
    obtain ⟨t, p⟩ := tp
    show ((primAction p (t - last) :: captureList t rest).map Action.delta).sum =
      (t :: rest.map Prod.fst).getLastD last - last
    rw [List.map_cons, List.sum_cons, primAction_delta, ih t, List.getLastD_cons]
    ring

/-- C7: each capture callback appends one action whose delta is now minus
last_event_time (initialized to the capture start time) and advances
last_event_time, so the deltas of the log telescope: their sum is the time of
the last captured event minus the capture start time. -/
theorem C7_delta_telescoping (start : ℚ) (tevs : List (ℚ × Prim)) :
    ((record_session (rec_init start) tevs).actions.map Action.delta).sum =
      (tevs.map Prod.fst).getLastD start - start ∧
    (record_session (rec_init start) tevs).actions.length = tevs.length ∧
    (record_session (rec_init start) tevs).last_action_time =
      (tevs.map Prod.fst).getLastD start := by
  rw [record_session_eq tevs (rec_init start) rfl]
  simp [rec_init, captureList_delta_sum, captureList_length]

/-- C7 witness: two events at times 1 and 2 captured from start time 0 leave
deltas summing to 2. -/
theorem C7_delta_telescoping_witness :
    ((record_session (rec_init 0)
        [((1 : ℚ), Prim.keyPress (PKey.chr 'a')),
         ((2 : ℚ), Prim.keyRelease (PKey.chr 'a'))]).actions.map Action.delta).sum = 2 := by
  rw [(C7_delta_telescoping 0
    [((1 : ℚ), Prim.keyPress (PKey.chr 'a')),
     ((2 : ℚ), Prim.keyRelease (PKey.chr 'a'))]).1]
  norm_num

/-- The key-name table contains only lowercase names of length at least 2. -/
lemma pynputKeyNames_wf : ∀ s ∈ pynputKeyNames, strLower s = s ∧ s.length ≠ 1 := by
  decide

/-- The capture-side key-name encoding composed with the replay-side lookup
is the identity on capturable keys. -/
lemma key_roundtrip (k : PKey) (h : validKey k = true) :
    get_key (get_key_name k) = some k := by
  cases k with
  | chr c =>
    have hlen : (String.mk [c]).length = 1 := rfl
    simp [get_key_name, get_key, hlen]
  | special s =>
    have hmem : s ∈ pynputKeyNames := by simpa [validKey] using h
    obtain ⟨hlow, hlen⟩ := pynputKeyNames_wf s hmem
    have hcs : pynputKeyNames.contains s = true := by simpa [validKey] using h
    simp [get_key_name, get_key, hlen, hlow, hcs]
    exact hmem

/-- The capture-side button-name encoding composed with the replay-side
lookup is the identity on capturable buttons. -/
lemma button_roundtrip (b : String) (h : pynputButtonNames.contains b = true) :
    get_button b = some b := by
  have hmem : b ∈ pynputButtonNames := by simpa using h
  simp [get_button, hmem]

lemma recapture_sleep (pos : Int × Int) (c : Prop) [Decidable c] (d : ℚ)
    (es : List Event) :
    recapture pos ((if c then [Event.sleep d] else []) ++ es) = recapture pos es := by
  split <;> rfl

lemma recapture_tail (i : Nat) (s : String) : ∀ (xs : List Event) (pos : Int × Int),
    recapture pos (xs ++ [Event.progress i, Event.status s, Event.finishedSig]) =
      recapture pos xs := by
  intro xs
  induction xs with
  | nil => intro pos; rfl
  | cons e rest ih => intro pos; cases e <;> simp [recapture, ih]

/-- Observing the synthesis events of one replay pass over a captured log
gives back exactly the captured primitive sequence. -/
lemma recapture_captureList : ∀ (tevs : List (ℚ × Prim)) (p0 : Int × Int) (last : ℚ),
    (tevs.map Prod.snd).all validPrim = true →
    posConsistent p0 (tevs.map Prod.snd) = true →
    recapture p0 (iterEvents (captureList last tevs)) = tevs.map Prod.snd := by
  intro tevs
  induction tevs with
  | nil => intro p0 last hv hp; rfl
  | cons tp rest ih =>
    intro p0 last hv hp
    obtain ⟨t, p⟩ := tp
    rw [List.map_cons, List.all_cons, Bool.and_eq_true] at hv
    have hIE : iterEvents (primAction p (t - last) :: captureList t rest) =
        (if 0 < (primAction p (t - last)).delta
         then [Event.sleep (primAction p (t - last)).delta] else []) ++
        (actionEvents (primAction p (t - last)) ++ iterEvents (captureList t rest)) := by
      simp [iterEvents, List.flatMap_cons, List.append_assoc]
    show recapture p0 (iterEvents (primAction p (t - last) :: captureList t rest)) =
      p :: rest.map Prod.snd
    rw [hIE, recapture_sleep]
    cases p with
    | keyPress k =>
      have hk : get_key (get_key_name k) = some k :=
        key_roundtrip k (by simpa [validPrim] using hv.1)
      rw [show actionEvents (primAction (Prim.keyPress k) (t - last)) = [Event.press k] from by
        simp [primAction, actionEvents, execute_action, hk]]
      show Prim.keyPress k :: recapture p0 (iterEvents (captureList t rest)) =
        Prim.keyPress k :: rest.map Prod.snd
      exact congrArg _ (ih p0 t hv.2 (by simpa [List.map_cons, posConsistent] using hp))
    | keyRelease k =>
      have hk : get_key (get_key_name k) = some k :=
        key_roundtrip k (by simpa [validPrim] using hv.1)
      rw [show actionEvents (primAction (Prim.keyRelease k) (t - last)) = [Event.release k] from by
        simp [primAction, actionEvents, execute_action, hk]]
      show Prim.keyRelease k :: recapture p0 (iterEvents (captureList t rest)) =
        Prim.keyRelease k :: rest.map Prod.snd
      exact congrArg _ (ih p0 t hv.2 (by simpa [List.map_cons, posConsistent] using hp))
    | pointerMove x y =>
      rw [show actionEvents (primAction (Prim.pointerMove x y) (t - last)) =
        [Event.moveTo x y] from rfl]
      show Prim.pointerMove x y :: recapture (x, y) (iterEvents (captureList t rest)) =
        Prim.pointerMove x y :: rest.map Prod.snd
      exact congrArg _ (ih (x, y) t hv.2 (by simpa [List.map_cons, posConsistent] using hp))
    | buttonDown b x y =>
      have hb : get_button b = some b :=
        button_roundtrip b (by simpa [validPrim] using hv.1)
      rw [show actionEvents (primAction (Prim.buttonDown b x y) (t - last)) =
        [Event.buttonPress b] from by simp [primAction, actionEvents, execute_action, hb]]
      have hp3 : (x == p0.1 && y == p0.2 &&
          posConsistent p0 (rest.map Prod.snd)) = true := by
        simpa [List.map_cons, posConsistent] using hp
      rw [Bool.and_eq_true, Bool.and_eq_true, beq_iff_eq, beq_iff_eq] at hp3
      obtain ⟨⟨hx, hy⟩, hrest⟩ := hp3
      show Prim.buttonDown b p0.1 p0.2 :: recapture p0 (iterEvents (captureList t rest)) =
        Prim.buttonDown b x y :: rest.map Prod.snd
      rw [ih p0 t hv.2 hrest, hx, hy]
    | buttonUp b x y =>
      have hb : get_button b = some b :=
        button_roundtrip b (by simpa [validPrim] using hv.1)
      rw [show actionEvents (primAction (Prim.buttonUp b x y) (t - last)) =
        [Event.buttonRelease b] from by simp [primAction, actionEvents, execute_action, hb]]
      have hp3 : (x == p0.1 && y == p0.2 &&
          posConsistent p0 (rest.map Prod.snd)) = true := by
        simpa [List.map_cons, posConsistent] using hp
      rw [Bool.and_eq_true, Bool.and_eq_true, beq_iff_eq, beq_iff_eq] at hp3
      obtain ⟨⟨hx, hy⟩, hrest⟩ := hp3
      show Prim.buttonUp b p0.1 p0.2 :: recapture p0 (iterEvents (captureList t rest)) =
        Prim.buttonUp b x y :: rest.map Prod.snd
      rw [ih p0 t hv.2 hrest, hx, hy]
    | wheel dx dy =>
      rw [show actionEvents (primAction (Prim.wheel dx dy) (t - last)) =
        [Event.scrollBy dx dy] from rfl]
      show Prim.wheel dx dy :: recapture p0 (iterEvents (captureList t rest)) =
        Prim.wheel dx dy :: rest.map Prod.snd
      exact congrArg _ (ih p0 t hv.2 (by simpa [List.map_cons, posConsistent] using hp))

/-- C6: capturing a sequence of input primitives and replaying the resulting
log once with repeat count 1 re-synthesizes, ignoring timing, the identical
ordered primitive sequence: every recorded symbolic key or button name
resolves back to the primitive it was captured from.  The sequence must be
capturable (its names drawn from the closed enumerations), physically
consistent with the replay-side starting pointer position, and balanced (no
input left held at the end of the pass, so the cleanup injects nothing). -/
theorem C6_capture_replay_roundtrip (start : ℚ) (p0 : Int × Int)
    (tevs : List (ℚ × Prim))
    (hval : (tevs.map Prod.snd).all validPrim = true)
    (hpos : posConsistent p0 (tevs.map Prod.snd) = true)
    (hbal : execStates ((record_session (rec_init start) tevs).actions)
        { pressed_keys := [], pressed_buttons := [] } =
      { pressed_keys := [], pressed_buttons := [] }) :
    recapture p0 ((player_run ((record_session (rec_init start) tevs).actions) 1 ctx0).2) =
      tevs.map Prod.snd := by
  have hacts : (record_session (rec_init start) tevs).actions = captureList start tevs := by
    rw [record_session_eq tevs (rec_init start) rfl]
    simp [rec_init]
  rw [hacts] at hbal ⊢
  have hrun : runOut (captureList start tevs) 1 ctx0 =
      { st := { pressed_keys := [], pressed_buttons := [] },
        evs := iterEvents (captureList start tevs) ++ [Event.progress 1],
        ci := (captureList start tevs).length + 1,
        ei := (captureList start tevs).length,
        raised := false } := by
    rw [runOut, playIters_ctx0]
    simp [execStatesN, execStates] at hbal ⊢
    simp [hbal, itersTrace]
  have htrace : (player_run (captureList start tevs) 1 ctx0).2 =
      Event.status ("Playing Macro") :: (iterEvents (captureList start tevs) ++
        [Event.progress 1, Event.status ("Playback Finished"), Event.finishedSig]) := by
    rw [player_run_eq, hrun]
    simp [flagRead, ctx0, List.append_assoc]
  rw [htrace]
  have hskip : recapture p0 (Event.status ("Playing Macro") ::
      (iterEvents (captureList start tevs) ++
        [Event.progress 1, Event.status ("Playback Finished"), Event.finishedSig])) =
      recapture p0 (iterEvents (captureList start tevs) ++
        [Event.progress 1, Event.status ("Playback Finished"), Event.finishedSig]) := rfl
  rw [hskip, recapture_tail]
  exact recapture_captureList tevs p0 start hval hpos

/-- C6 witness: a concrete captured session (key a down and up, a pointer
move, a left-button click at the moved-to position) replays to exactly the
captured primitive sequence. -/
theorem C6_capture_replay_roundtrip_witness :
    recapture (0, 0) ((player_run ((record_session (rec_init 0)
        [((0 : ℚ), Prim.keyPress (PKey.chr 'a')),
         ((1 : ℚ), Prim.keyRelease (PKey.chr 'a')),
         ((2 : ℚ), Prim.pointerMove 7 8),
         ((3 : ℚ), Prim.buttonDown ("left") 7 8),
         ((4 : ℚ), Prim.buttonUp ("left") 7 8)]).actions) 1 ctx0).2) =
      [Prim.keyPress (PKey.chr 'a'), Prim.keyRelease (PKey.chr 'a'),
       Prim.pointerMove 7 8, Prim.buttonDown ("left") 7 8,
       Prim.buttonUp ("left") 7 8] :=
  C6_capture_replay_roundtrip 0 (0, 0) _ (by decide) (by decide) (by decide)

end Wea
